import Mathlib

/-
  Verification of libDaltonLens (libDaltonLens.c) against its
  natural-language specification.

  Shallow embedding notes.

  * Machine floats are modelled by exact rationals.  The C library calls
    powf from libm (not part of this repository) at the two exponents
    2.4 and 1/2.4; we therefore parametrize every definition by an
    abstract power function pw : Q -> Q -> Q (base, exponent).  Theorems
    that depend on values of powf take explicit hypotheses stating the
    elementary real-analysis facts used (monotonicity, exact inversion of
    x^2.4 by x^(1/2.4), interval bounds); every such fact is true of the
    real function x^e on the stated domain.  Witnesses instantiate pw
    with an affine pair pwAff that satisfies all the stated hypotheses
    exactly in rational arithmetic.  Counterexamples are chosen so that
    every channel stays inside the branches of the codec that never
    consult pw, hence they are independent of the power function.

  * The C conversion (unsigned char) of a nonnegative float truncates
    toward zero; byteOfRat models it with Int.floor followed by toNat
    (identical on the reachable, nonnegative values).

  * An RGBA pixel buffer is a function from byte offset to byte value;
    the row/column loops of the C file become structural recursion that
    performs the same sequence of in-place pixel updates.

  * A C call with an enum value outside the three DLDeficiency variants
    leaves the parameter pointer NULL and crashes at the first pixel
    dereference; the _int variants model the int-typed calling convention,
    returning Option and yielding none exactly when a pixel would have
    been processed with the NULL parameter set.
-/

/-- A 3-vector of rationals, standing for a float[3] of the C code. -/
abbrev Vec3 : Type := ℚ × ℚ × ℚ

/-- A 3x3 matrix stored as three rows, standing for a row-major float[9]. -/
abbrev Mat3 : Type := Vec3 × Vec3 × Vec3

/-- Dot product of two 3-vectors. -/
def dotv (a b : Vec3) : ℚ :=
  a.1 * b.1 + a.2.1 * b.2.1 + a.2.2 * b.2.2

/-- Matrix-vector product, one dot product per row, as in the C code. -/
def mulVec (m : Mat3) (v : Vec3) : Vec3 :=
  (dotv m.1 v, dotv m.2.1 v, dotv m.2.2 v)

/-- The C conversion (unsigned char) of a float value: truncation toward
zero, modelled on the reachable nonnegative range by floor-then-toNat. -/
def byteOfRat (x : ℚ) : ℕ :=
  (Int.floor x).toNat

/-- linearRGB_from_sRGB of libDaltonLens.c: decode one 8-bit sRGB sample
to a linear value.  pw models powf. -/
def linearRGB_from_sRGB (pw : ℚ → ℚ → ℚ) (v : ℕ) : ℚ :=
  let fv : ℚ := (v : ℚ) / 255
  if fv < 0.04045 then fv / 12.92 else pw ((fv + 0.055) / 1.055) 2.4

/-- sRGB_from_linearRGB of libDaltonLens.c: encode one linear value to an
8-bit sRGB sample.  Note the final branch adds 0 (plain truncation), the
low branch adds 0.5 before truncation. -/
def sRGB_from_linearRGB (pw : ℚ → ℚ → ℚ) (v : ℚ) : ℕ :=
  if v ≤ 0 then 0
  else if v ≥ 1 then 255
  else if v < 0.0031308 then byteOfRat (0.5 + v * 12.92 * 255)
  else byteOfRat (0 + 255 * (pw v (1 / 2.4) * 1.055 - 0.055))

/-- The base of the power in the decode branch for byte v. -/
def gammaBase (v : ℕ) : ℚ :=
  ((v : ℚ) / 255 + 0.055) / 1.055

/-- Facts about the power function used by the decode/encode round trip:
x^2.4 at 1 is 1, and on the bases reached from bytes 11..254 the value
of x^2.4 lies in [0.0031308, 1) and is inverted exactly by x^(1/2.4).
All conjuncts are true of the real power function. -/
def PowHyp (pw : ℚ → ℚ → ℚ) : Prop :=
  pw 1 2.4 = 1 ∧
  ∀ v : ℕ, 11 ≤ v → v ≤ 254 →
    0.0031308 ≤ pw (gammaBase v) 2.4 ∧
    pw (gammaBase v) 2.4 < 1 ∧
    pw (pw (gammaBase v) 2.4) (1 / 2.4) = gammaBase v

/-- Facts about x^(1/2.4) used for monotonicity of the encoder:
it is monotone, at 0.0031308 it is at least (10/255 + 0.055)/1.055,
and below 1 it stays at most 1.  All are true of the real function. -/
def PowEncHyp (pw : ℚ → ℚ → ℚ) : Prop :=
  (∀ x y : ℚ, x ≤ y → pw x (1 / 2.4) ≤ pw y (1 / 2.4)) ∧
  (10 / 255 + 0.055) / 1.055 ≤ pw 0.0031308 (1 / 2.4) ∧
  (∀ x : ℚ, x < 1 → pw x (1 / 2.4) ≤ 1)

/-- An affine stand-in for powf: an exact rational bijection pair used by
witnesses; it satisfies PowHyp and PowEncHyp exactly. -/
def pwAff (x e : ℚ) : ℚ :=
  if e = 1 / 2.4 then (x + 0.097) / 1.097 else 1.097 * x - 0.097

lemma gammaBase_eq (v : ℕ) : gammaBase v = (40 * (v : ℚ) + 561) / 10761 := by
  unfold gammaBase
  ring

lemma pwAff_powHyp : PowHyp pwAff := by
  constructor
  · norm_num [pwAff]
  · intro v hv1 hv2
    have hc1 : (11 : ℚ) ≤ (v : ℚ) := by exact_mod_cast hv1
    have hc2 : (v : ℚ) ≤ 254 := by exact_mod_cast hv2
    have he : ((2.4 : ℚ)) ≠ 1 / 2.4 := by norm_num
    refine ⟨?_, ?_, ?_⟩
    · rw [pwAff, if_neg he, gammaBase_eq]
      linarith
    · rw [pwAff, if_neg he, gammaBase_eq]
      linarith
    · have h1 : pwAff (gammaBase v) 2.4 = 1.097 * gammaBase v - 0.097 := by
        rw [pwAff, if_neg he]
      rw [pwAff, if_pos rfl, h1]
      ring

lemma pwAff_encHyp : PowEncHyp pwAff := by
  refine ⟨?_, ?_, ?_⟩
  · intro x y hxy
    rw [pwAff, if_pos rfl, pwAff, if_pos rfl]
    gcongr
  · rw [pwAff, if_pos rfl]
    norm_num
  · intro x hx
    rw [pwAff, if_pos rfl]
    rw [div_le_one (by norm_num : (0:ℚ) < 1.097)]
    linarith

/-- enum DLDeficiency of libDaltonLens.h: a closed enumeration with the
three variants Protan, Deutan, Tritan (C values 0, 1, 2). -/
inductive DLDeficiency : Type
  | Protan : DLDeficiency
  | Deutan : DLDeficiency
  | Tritan : DLDeficiency
deriving DecidableEq

/-- struct DLBrettel1997Params of libDaltonLens.c: two combined
linear-RGB-to-linear-RGB matrices (one per half-plane) and the normal of
the separation plane, already expressed in the RGB space. -/
structure DLBrettel1997Params : Type where
  rgbCvdFromRgb_1 : Mat3
  rgbCvdFromRgb_2 : Mat3
  separationPlaneNormalInRgb : Vec3

/-- brettel_protan_params of libDaltonLens.c. -/
def brettel_protan_params : DLBrettel1997Params :=
  { rgbCvdFromRgb_1 :=
      ((0.14980, 1.19548, -0.34528),
       (0.10764, 0.84864, 0.04372),
       (0.00384, -0.00540, 1.00156))
    rgbCvdFromRgb_2 :=
      ((0.14570, 1.16172, -0.30742),
       (0.10816, 0.85291, 0.03892),
       (0.00386, -0.00524, 1.00139))
    separationPlaneNormalInRgb := (0.00048, 0.00393, -0.00441) }

/-- brettel_deutan_params of libDaltonLens.c. -/
def brettel_deutan_params : DLBrettel1997Params :=
  { rgbCvdFromRgb_1 :=
      ((0.36477, 0.86381, -0.22858),
       (0.26294, 0.64245, 0.09462),
       (-0.02006, 0.02728, 0.99278))
    rgbCvdFromRgb_2 :=
      ((0.37298, 0.88166, -0.25464),
       (0.25954, 0.63506, 0.10540),
       (-0.01980, 0.02784, 0.99196))
    separationPlaneNormalInRgb := (-0.00281, -0.00611, 0.00892) }

/-- brettel_tritan_params of libDaltonLens.c. -/
def brettel_tritan_params : DLBrettel1997Params :=
  { rgbCvdFromRgb_1 :=
      ((1.01277, 0.13548, -0.14826),
       (-0.01243, 0.86812, 0.14431),
       (0.07589, 0.80500, 0.11911))
    rgbCvdFromRgb_2 :=
      ((0.93678, 0.18979, -0.12657),
       (0.06154, 0.81526, 0.12320),
       (-0.37562, 1.12767, 0.24796))
    separationPlaneNormalInRgb := (0.03901, -0.02788, -0.01113) }

/-- The switch over deficiency in dl_simulate_cvd_brettel1997. -/
def brettelParams : DLDeficiency → DLBrettel1997Params
  | DLDeficiency.Protan => brettel_protan_params
  | DLDeficiency.Deutan => brettel_deutan_params
  | DLDeficiency.Tritan => brettel_tritan_params

/-- dl_vienot_protan_rgbCvd_from_rgb of libDaltonLens.c. -/
def dl_vienot_protan_rgbCvd_from_rgb : Mat3 :=
  ((0.11238, 0.88762, 0.00000),
   (0.11238, 0.88762, -0.00000),
   (0.00401, -0.00401, 1.00000))

/-- dl_vienot_deutan_rgbCvd_from_rgb of libDaltonLens.c. -/
def dl_vienot_deutan_rgbCvd_from_rgb : Mat3 :=
  ((0.29275, 0.70725, 0.00000),
   (0.29275, 0.70725, -0.00000),
   (-0.02234, 0.02234, 1.00000))

/-- dl_vienot_tritan_rgbCvd_from_rgb of libDaltonLens.c. -/
def dl_vienot_tritan_rgbCvd_from_rgb : Mat3 :=
  ((1.00000, 0.14461, -0.14461),
   (0.00000, 0.85924, 0.14076),
   (-0.00000, 0.85924, 0.14076))

/-- The switch over deficiency in dl_simulate_cvd_vienot1999. -/
def vienotParams : DLDeficiency → Mat3
  | DLDeficiency.Protan => dl_vienot_protan_rgbCvd_from_rgb
  | DLDeficiency.Deutan => dl_vienot_deutan_rgbCvd_from_rgb
  | DLDeficiency.Tritan => dl_vienot_tritan_rgbCvd_from_rgb

/-- The per-pixel body of dl_simulate_cvd_brettel1997 on decoded linear
RGB: pick the half-plane matrix by the sign of the dot product with the
separation plane normal, multiply, then blend with the severity factor. -/
def brettelPixel (params : DLBrettel1997Params) (severity : ℚ) (rgb : Vec3) : Vec3 :=
  let n := params.separationPlaneNormalInRgb
  let dotWithSepPlane := rgb.1 * n.1 + rgb.2.1 * n.2.1 + rgb.2.2 * n.2.2
  let rgbCvdFromRgb :=
    if dotWithSepPlane ≥ 0 then params.rgbCvdFromRgb_1 else params.rgbCvdFromRgb_2
  let rgb_cvd := mulVec rgbCvdFromRgb rgb
  (rgb_cvd.1 * severity + rgb.1 * (1 - severity),
   rgb_cvd.2.1 * severity + rgb.2.1 * (1 - severity),
   rgb_cvd.2.2 * severity + rgb.2.2 * (1 - severity))

/-- The per-pixel body of dl_simulate_cvd_vienot1999 on decoded linear
RGB: multiply by the single matrix, then blend, with the epsilon
short-circuit skipping the blend when severity is at least 0.999. -/
def vienotPixel (rgbCvd_from_rgb : Mat3) (severity : ℚ) (rgb : Vec3) : Vec3 :=
  let rgb_cvd := mulVec rgbCvd_from_rgb rgb
  if severity < 0.999 then
    (severity * rgb_cvd.1 + (1 - severity) * rgb.1,
     severity * rgb_cvd.2.1 + (1 - severity) * rgb.2.1,
     severity * rgb_cvd.2.2 + (1 - severity) * rgb.2.2)
  else rgb_cvd

/-- An RGBA byte buffer: byte value at each byte offset. -/
def Buffer : Type := ℕ → ℕ

/-- One iteration of the inner pixel loop at byte offset base: decode the
three sRGB bytes, apply the linear per-pixel transform f, encode and
store the three results in place; the alpha byte base+3 is not written. -/
def applyPixel (pw : ℚ → ℚ → ℚ) (f : Vec3 → Vec3) (buf : Buffer) (base : ℕ) : Buffer :=
  let rgb : Vec3 :=
    (linearRGB_from_sRGB pw (buf base),
     linearRGB_from_sRGB pw (buf (base + 1)),
     linearRGB_from_sRGB pw (buf (base + 2)))
  let out := f rgb
  fun i =>
    if i = base then sRGB_from_linearRGB pw out.1
    else if i = base + 1 then sRGB_from_linearRGB pw out.2.1
    else if i = base + 2 then sRGB_from_linearRGB pw out.2.2
    else buf i

/-- The inner column loop: pixels 0, 1, ..., count-1 of the row starting
at byte offset start, processed left to right (structural recursion adds
the last pixel after the first count-1). -/
def processRow (pw : ℚ → ℚ → ℚ) (f : Vec3 → Vec3) (buf : Buffer) (start : ℕ) :
    ℕ → Buffer
  | 0 => buf
  | count + 1 => applyPixel pw f (processRow pw f buf start count) (start + 4 * count)

/-- The outer row loop: rows 0, 1, ..., count-1, each starting at byte
offset bytesPerRow * row, processed top to bottom. -/
def processImage (pw : ℚ → ℚ → ℚ) (f : Vec3 → Vec3) (buf : Buffer)
    (bytesPerRow width : ℕ) : ℕ → Buffer
  | 0 => buf
  | count + 1 =>
    processRow pw f (processImage pw f buf bytesPerRow width count)
      (bytesPerRow * count) width

/-- dl_simulate_cvd_brettel1997 of libDaltonLens.c: default the row
stride, select the parameter set by deficiency, and walk the buffer. -/
def dl_simulate_cvd_brettel1997 (pw : ℚ → ℚ → ℚ) (deficiency : DLDeficiency)
    (severity : ℚ) (srgba_image : Buffer) (width height bytesPerRow : ℕ) : Buffer :=
  let bpr := if bytesPerRow = 0 then width * 4 else bytesPerRow
  processImage pw (brettelPixel (brettelParams deficiency) severity)
    srgba_image bpr width height

/-- dl_simulate_cvd_vienot1999 of libDaltonLens.c: default the row
stride, select the matrix by deficiency, and walk the buffer. -/
def dl_simulate_cvd_vienot1999 (pw : ℚ → ℚ → ℚ) (deficiency : DLDeficiency)
    (severity : ℚ) (srgba_image : Buffer) (width height bytesPerRow : ℕ) : Buffer :=
  let bpr := if bytesPerRow = 0 then width * 4 else bytesPerRow
  processImage pw (vienotPixel (vienotParams deficiency) severity)
    srgba_image bpr width height

/-- dl_simulate_cvd of libDaltonLens.c: Brettel 1997 for tritanopia,
Vienot 1999 otherwise. -/
def dl_simulate_cvd (pw : ℚ → ℚ → ℚ) (deficiency : DLDeficiency) (severity : ℚ)
    (srgba_image : Buffer) (width height bytesPerRow : ℕ) : Buffer :=
  if deficiency = DLDeficiency.Tritan then
    dl_simulate_cvd_brettel1997 pw deficiency severity srgba_image width height bytesPerRow
  else
    dl_simulate_cvd_vienot1999 pw deficiency severity srgba_image width height bytesPerRow

/-- LMS_from_linearRGB of the older copy of libDaltonLens.c (explicit-LMS
Brettel formulation, src/unnamed/part_001). -/
def LMS_from_linearRGB : Mat3 :=
  ((0.17886, 0.43997, 0.03597),
   (0.03380, 0.27515, 0.03621),
   (0.00031, 0.00192, 0.01528))

/-- linearRGB_from_LMS of the older copy of libDaltonLens.c. -/
def linearRGB_from_LMS : Mat3 :=
  ((8.00533, -12.88195, 11.68065),
   (-0.97821, 5.26945, -10.18300),
   (-0.04017, -0.39885, 66.48079))

/-- struct DLBrettel1997Params of the older copy: index of the LMS
coordinate that is projected, the two projection rows, and the separation
plane normal, all in the LMS space. -/
structure DLBrettel1997ParamsLms : Type where
  lmsElementToProject : Fin 3
  projectionOnPlane1 : Vec3
  projectionOnPlane2 : Vec3
  separationPlaneNormal : Vec3

/-- Read one coordinate of a 3-vector. -/
def vecElem (v : Vec3) : Fin 3 → ℚ
  | ⟨0, _⟩ => v.1
  | ⟨1, _⟩ => v.2.1
  | ⟨2, _⟩ => v.2.2

/-- Replace one coordinate of a 3-vector. -/
def setElem (v : Vec3) : Fin 3 → ℚ → Vec3
  | ⟨0, _⟩, x => (x, v.2.1, v.2.2)
  | ⟨1, _⟩, x => (v.1, x, v.2.2)
  | ⟨2, _⟩, x => (v.1, v.2.1, x)

/-- brettel_protan_params of the older copy (LMS formulation). -/
def brettel_protan_params_lms : DLBrettel1997ParamsLms :=
  { lmsElementToProject := 0
    projectionOnPlane1 := (0.00000, 2.18394, -5.65554)
    projectionOnPlane2 := (0.00000, 2.16614, -5.30455)
    separationPlaneNormal := (0.00000, 0.01751, -0.34516) }

/-- brettel_deutan_params of the older copy (LMS formulation). -/
def brettel_deutan_params_lms : DLBrettel1997ParamsLms :=
  { lmsElementToProject := 1
    projectionOnPlane1 := (0.46165, 0.00000, 2.44885)
    projectionOnPlane2 := (0.45789, 0.00000, 2.58960)
    separationPlaneNormal := (-0.01751, 0.00000, 0.65480) }

/-- brettel_tritan_params of the older copy (LMS formulation). -/
def brettel_tritan_params_lms : DLBrettel1997ParamsLms :=
  { lmsElementToProject := 2
    projectionOnPlane1 := (-0.00213, 0.05477, 0.00000)
    projectionOnPlane2 := (-0.06195, 0.16826, 0.00000)
    separationPlaneNormal := (0.34516, -0.65480, 0.00000) }

/-- The switch over deficiency in the older dl_simulate_cvd_brettel1997. -/
def brettelParamsLms : DLDeficiency → DLBrettel1997ParamsLms
  | DLDeficiency.Protan => brettel_protan_params_lms
  | DLDeficiency.Deutan => brettel_deutan_params_lms
  | DLDeficiency.Tritan => brettel_tritan_params_lms

/-- The per-pixel body of the older dl_simulate_cvd_brettel1997 on decoded
linear RGB, parametric in the two LMS basis matrices: convert to LMS, pick
a projection row by the sign of a dot product in LMS, project and
severity-blend the single affected LMS coordinate, convert back. -/
def brettelPixelLms (lmsFromRgb rgbFromLms : Mat3) (params : DLBrettel1997ParamsLms)
    (severity : ℚ) (rgb : Vec3) : Vec3 :=
  let lms := mulVec lmsFromRgb rgb
  let dotWithSepPlane := dotv lms params.separationPlaneNormal
  let projectionOnPlane :=
    if dotWithSepPlane ≥ 0 then params.projectionOnPlane1 else params.projectionOnPlane2
  let projected_element := dotv projectionOnPlane lms
  let k := params.lmsElementToProject
  let lms2 := setElem lms k (projected_element * severity + vecElem lms k * (1 - severity))
  mulVec rgbFromLms lms2

/-- dl_simulate_cvd_brettel1997 of the older copy of libDaltonLens.c:
same stride defaulting and buffer walk, explicit-LMS per-pixel body with
the older constant tables. -/
def dl_simulate_cvd_brettel1997_lms (pw : ℚ → ℚ → ℚ) (deficiency : DLDeficiency)
    (severity : ℚ) (srgba_image : Buffer) (width height bytesPerRow : ℕ) : Buffer :=
  let bpr := if bytesPerRow = 0 then width * 4 else bytesPerRow
  processImage pw
    (brettelPixelLms LMS_from_linearRGB linearRGB_from_LMS
      (brettelParamsLms deficiency) severity)
    srgba_image bpr width height

/-- The switch of dl_simulate_cvd_brettel1997 as seen from C, where the
enum argument is an integer: values other than 0, 1, 2 match no case and
leave the parameter pointer NULL. -/
def brettelParamsInt : ℕ → Option DLBrettel1997Params
  | 0 => some brettel_protan_params
  | 1 => some brettel_deutan_params
  | 2 => some brettel_tritan_params
  | _ => none

/-- The switch of dl_simulate_cvd_vienot1999 as seen from C. -/
def vienotParamsInt : ℕ → Option Mat3
  | 0 => some dl_vienot_protan_rgbCvd_from_rgb
  | 1 => some dl_vienot_deutan_rgbCvd_from_rgb
  | 2 => some dl_vienot_tritan_rgbCvd_from_rgb
  | _ => none

/-- dl_simulate_cvd_brettel1997 with the int-typed calling convention of
the C enum.  When the switch matches no case the C code dereferences the
NULL parameter pointer at the first processed pixel, modelled as none;
when the loop bounds make it process no pixel the buffer is returned
untouched. -/
def dl_simulate_cvd_brettel1997_int (pw : ℚ → ℚ → ℚ) (deficiency : ℕ)
    (severity : ℚ) (srgba_image : Buffer) (width height bytesPerRow : ℕ) :
    Option Buffer :=
  let bpr := if bytesPerRow = 0 then width * 4 else bytesPerRow
  match brettelParamsInt deficiency with
  | some params =>
    some (processImage pw (brettelPixel params severity) srgba_image bpr width height)
  | none => if width = 0 ∨ height = 0 then some srgba_image else none

/-- dl_simulate_cvd_vienot1999 with the int-typed calling convention. -/
def dl_simulate_cvd_vienot1999_int (pw : ℚ → ℚ → ℚ) (deficiency : ℕ)
    (severity : ℚ) (srgba_image : Buffer) (width height bytesPerRow : ℕ) :
    Option Buffer :=
  let bpr := if bytesPerRow = 0 then width * 4 else bytesPerRow
  match vienotParamsInt deficiency with
  | some m =>
    some (processImage pw (vienotPixel m severity) srgba_image bpr width height)
  | none => if width = 0 ∨ height = 0 then some srgba_image else none

/-- dl_simulate_cvd with the int-typed calling convention: the C test
deficiency == DLDeficiency_Tritan compares the integer with 2. -/
def dl_simulate_cvd_int (pw : ℚ → ℚ → ℚ) (deficiency : ℕ) (severity : ℚ)
    (srgba_image : Buffer) (width height bytesPerRow : ℕ) : Option Buffer :=
  if deficiency = 2 then
    dl_simulate_cvd_brettel1997_int pw deficiency severity srgba_image width height bytesPerRow
  else
    dl_simulate_cvd_vienot1999_int pw deficiency severity srgba_image width height bytesPerRow

lemma byteOfRat_nat (n : ℕ) : byteOfRat ((n : ℚ)) = n := by
  unfold byteOfRat
  rw [Int.floor_natCast]
  exact Int.toNat_natCast n

lemma byteOfRat_half_add_nat (n : ℕ) : byteOfRat (0.5 + (n : ℚ)) = n := by
  unfold byteOfRat
  have h : Int.floor ((0.5 : ℚ) + (n : ℚ)) = (n : ℤ) := by
    rw [Int.floor_eq_iff]
    constructor
    · push_cast
      linarith
    · push_cast
      linarith
  rw [h]
  exact Int.toNat_natCast n

/-- Decode branch facts: a byte at most 10 takes the linear branch. -/
lemma decode_low (pw : ℚ → ℚ → ℚ) (v : ℕ) (hv : v ≤ 10) :
    linearRGB_from_sRGB pw v = (v : ℚ) / 3294.6 := by
  have hvq : (v : ℚ) ≤ 10 := by exact_mod_cast hv
  unfold linearRGB_from_sRGB
  rw [if_pos (by linarith : (v : ℚ) / 255 < 0.04045)]
  ring

/-- Decode branch facts: a byte of at least 11 takes the power branch. -/
lemma decode_high (pw : ℚ → ℚ → ℚ) (v : ℕ) (hv : 11 ≤ v) :
    linearRGB_from_sRGB pw v = pw (gammaBase v) 2.4 := by
  have hvq : (11 : ℚ) ≤ (v : ℚ) := by exact_mod_cast hv
  unfold linearRGB_from_sRGB gammaBase
  rw [if_neg (by push_neg; linarith : ¬((v : ℚ) / 255 < 0.04045))]

/-- Round trip of the channel codec: in the exact-arithmetic model the
encoder inverts the decoder on every byte. -/
lemma roundtrip_eq (pw : ℚ → ℚ → ℚ) (hpw : PowHyp pw) (v : ℕ) (hv : v ≤ 255) :
    sRGB_from_linearRGB pw (linearRGB_from_sRGB pw v) = v := by
  rcases Nat.lt_or_ge v 11 with h10 | h11
  · have hv10 : v ≤ 10 := by omega
    rw [decode_low pw v hv10]
    have hvq : (v : ℚ) ≤ 10 := by exact_mod_cast hv10
    rcases Nat.eq_zero_or_pos v with h0 | hpos
    · subst h0
      unfold sRGB_from_linearRGB
      rw [if_pos (by norm_num : ((0 : ℕ) : ℚ) / 3294.6 ≤ 0)]
    · have hvq1 : (1 : ℚ) ≤ (v : ℚ) := by exact_mod_cast hpos
      unfold sRGB_from_linearRGB
      rw [if_neg (by
        push_neg
        exact div_pos (by exact_mod_cast hpos) (by norm_num) : ¬((v : ℚ) / 3294.6 ≤ 0))]
      rw [if_neg (by
        push_neg
        rw [div_lt_one (by norm_num : (0:ℚ) < 3294.6)]
        linarith : ¬((v : ℚ) / 3294.6 ≥ 1))]
      rw [if_pos (by
        rw [div_lt_iff₀ (by norm_num : (0:ℚ) < 3294.6)]
        nlinarith : (v : ℚ) / 3294.6 < 0.0031308)]
      have harg : (0.5 : ℚ) + (v : ℚ) / 3294.6 * 12.92 * 255 = 0.5 + (v : ℚ) := by
        ring
      rw [harg, byteOfRat_half_add_nat]
  · rcases Nat.lt_or_ge v 255 with h254 | h255
    · have hv254 : v ≤ 254 := by omega
      rw [decode_high pw v h11]
      obtain ⟨hlo, hhi, hinv⟩ := hpw.2 v h11 hv254
      unfold sRGB_from_linearRGB
      rw [if_neg (by push_neg; linarith : ¬(pw (gammaBase v) 2.4 ≤ 0))]
      rw [if_neg (by push_neg; linarith : ¬(pw (gammaBase v) 2.4 ≥ 1))]
      rw [if_neg (by push_neg; linarith : ¬(pw (gammaBase v) 2.4 < 0.0031308))]
      rw [hinv]
      have harg : (0 : ℚ) + 255 * (gammaBase v * 1.055 - 0.055) = (v : ℚ) := by
        unfold gammaBase
        ring
      rw [harg, byteOfRat_nat]
    · have h255eq : v = 255 := by omega
      subst h255eq
      have hdec : linearRGB_from_sRGB pw 255 = pw 1 2.4 := by
        unfold linearRGB_from_sRGB
        rw [if_neg (by norm_num : ¬(((255 : ℕ) : ℚ) / 255 < 0.04045))]
        norm_num
      rw [hdec, hpw.1]
      unfold sRGB_from_linearRGB
      rw [if_neg (by norm_num : ¬((1 : ℚ) ≤ 0))]
      rw [if_pos (by norm_num : (1 : ℚ) ≥ 1)]

lemma byteOfRat_mono {x y : ℚ} (h : x ≤ y) : byteOfRat x ≤ byteOfRat y := by
  unfold byteOfRat
  exact Int.toNat_le_toNat (Int.floor_le_floor h)

lemma byteOfRat_le (n : ℕ) {x : ℚ} (h : x < (n : ℚ) + 1) : byteOfRat x ≤ n := by
  unfold byteOfRat
  have h1 : Int.floor x < (n : ℤ) + 1 := by
    rw [Int.floor_lt]
    push_cast
    exact h
  omega

lemma le_byteOfRat (n : ℕ) {x : ℚ} (h : (n : ℚ) ≤ x) : n ≤ byteOfRat x := by
  unfold byteOfRat
  have h1 : (n : ℤ) ≤ Int.floor x := Int.le_floor.mpr (by exact_mod_cast h)
  omega

/-- The encoder never exceeds 255 in the exact-arithmetic model. -/
lemma sRGB_from_linearRGB_le_255 (pw : ℚ → ℚ → ℚ) (hpw : PowEncHyp pw) (x : ℚ) :
    sRGB_from_linearRGB pw x ≤ 255 := by
  unfold sRGB_from_linearRGB
  by_cases hx0 : x ≤ 0
  · rw [if_pos hx0]
    omega
  · rw [if_neg hx0]
    by_cases hx1 : x ≥ 1
    · rw [if_pos hx1]
    · rw [if_neg hx1]
      by_cases hxc : x < 0.0031308
      · rw [if_pos hxc]
        exact byteOfRat_le 255 (by linarith)
      · rw [if_neg hxc]
        have hle : pw x (1 / 2.4) ≤ 1 := hpw.2.2 x (by push_neg at hx1; exact hx1)
        exact byteOfRat_le 255 (by linarith)

/-- The encoder is monotone in the exact-arithmetic model. -/
lemma sRGB_from_linearRGB_mono (pw : ℚ → ℚ → ℚ) (hpw : PowEncHyp pw)
    {x y : ℚ} (h : x ≤ y) :
    sRGB_from_linearRGB pw x ≤ sRGB_from_linearRGB pw y := by
  by_cases hx0 : x ≤ 0
  · unfold sRGB_from_linearRGB
    rw [if_pos hx0]
    omega
  · by_cases hy1 : y ≥ 1
    · have h255 := sRGB_from_linearRGB_le_255 pw hpw x
      unfold sRGB_from_linearRGB
      rw [if_neg (by push_neg; push_neg at hx0; linarith : ¬(y ≤ 0)), if_pos hy1]
      unfold sRGB_from_linearRGB at h255
      exact h255
    · have hx1 : ¬(x ≥ 1) := by push_neg at hy1 ⊢; linarith
      have hy0 : ¬(y ≤ 0) := by push_neg at hx0 ⊢; linarith
      unfold sRGB_from_linearRGB
      rw [if_neg hx0, if_neg hy0, if_neg hx1, if_neg hy1]
      by_cases hxc : x < 0.0031308
      · rw [if_pos hxc]
        by_cases hyc : y < 0.0031308
        · rw [if_pos hyc]
          exact byteOfRat_mono (by linarith)
        · rw [if_neg hyc]
          push_neg at hyc
          have hq0 : (10 / 255 + 0.055) / 1.055 ≤ pw y (1 / 2.4) :=
            le_trans hpw.2.1 (hpw.1 0.0031308 y hyc)
          calc byteOfRat (0.5 + x * 12.92 * 255) ≤ 10 :=
                byteOfRat_le 10 (by linarith)
            _ ≤ byteOfRat (0 + 255 * (pw y (1 / 2.4) * 1.055 - 0.055)) :=
                le_byteOfRat 10 (by linarith)
      · rw [if_neg hxc]
        have hyc : ¬(y < 0.0031308) := by push_neg at hxc ⊢; linarith
        rw [if_neg hyc]
        have hm : pw x (1 / 2.4) ≤ pw y (1 / 2.4) := hpw.1 x y h
        exact byteOfRat_mono (by linarith)

/-- At severity 0 the Brettel per-pixel body is the identity on linear RGB. -/
lemma brettelPixel_severity_zero (p : DLBrettel1997Params) (rgb : Vec3) :
    brettelPixel p 0 rgb = rgb := by
  obtain ⟨a, b, c⟩ := rgb
  simp [brettelPixel]

/-- At severity 0 the Vienot per-pixel body is the identity on linear RGB. -/
lemma vienotPixel_severity_zero (m : Mat3) (rgb : Vec3) :
    vienotPixel m 0 rgb = rgb := by
  obtain ⟨a, b, c⟩ := rgb
  unfold vienotPixel
  rw [if_pos (by norm_num)]
  simp

/-- At severity 1 the Vienot per-pixel body is the plain matrix product. -/
lemma vienotPixel_severity_one (m : Mat3) (rgb : Vec3) :
    vienotPixel m 1 rgb = mulVec m rgb := by
  unfold vienotPixel
  rw [if_neg (by norm_num)]

/-- At severity 1 the Brettel per-pixel body is the product with the
half-plane matrix selected by the separation-plane test. -/
lemma brettelPixel_severity_one (p : DLBrettel1997Params) (rgb : Vec3) :
    brettelPixel p 1 rgb =
      mulVec
        (if rgb.1 * p.separationPlaneNormalInRgb.1 +
            rgb.2.1 * p.separationPlaneNormalInRgb.2.1 +
            rgb.2.2 * p.separationPlaneNormalInRgb.2.2 ≥ 0
         then p.rgbCvdFromRgb_1 else p.rgbCvdFromRgb_2) rgb := by
  obtain ⟨a, b, c⟩ := rgb
  unfold brettelPixel
  simp [mulVec]

/-- applyPixel writes only the three bytes base, base+1, base+2. -/
lemma applyPixel_ne (pw : ℚ → ℚ → ℚ) (f : Vec3 → Vec3) (buf : Buffer) (base i : ℕ)
    (h0 : i ≠ base) (h1 : i ≠ base + 1) (h2 : i ≠ base + 2) :
    applyPixel pw f buf base i = buf i := by
  simp [applyPixel, h0, h1, h2]

/-- applyPixel reads only the three bytes base, base+1, base+2: on the
written bytes its output only depends on those reads. -/
lemma applyPixel_congr (pw : ℚ → ℚ → ℚ) (f : Vec3 → Vec3) (buf1 buf2 : Buffer)
    (base : ℕ) (e0 : buf1 base = buf2 base) (e1 : buf1 (base + 1) = buf2 (base + 1))
    (e2 : buf1 (base + 2) = buf2 (base + 2)) (i : ℕ)
    (hi : i = base ∨ i = base + 1 ∨ i = base + 2) :
    applyPixel pw f buf1 base i = applyPixel pw f buf2 base i := by
  rcases hi with rfl | rfl | rfl
  · simp [applyPixel, e0, e1, e2]
  · unfold applyPixel
    rw [if_neg (by omega), if_pos rfl, if_neg (by omega), if_pos rfl, e0, e1, e2]
  · unfold applyPixel
    rw [if_neg (by omega), if_neg (by omega), if_pos rfl,
        if_neg (by omega), if_neg (by omega), if_pos rfl, e0, e1, e2]

/-- processRow writes only bytes start + 4k + j with k < count, j < 3. -/
lemma processRow_ne (pw : ℚ → ℚ → ℚ) (f : Vec3 → Vec3) (buf : Buffer)
    (start : ℕ) (count : ℕ) (i : ℕ)
    (h : ∀ k < count, i ≠ start + 4 * k ∧ i ≠ start + 4 * k + 1 ∧ i ≠ start + 4 * k + 2) :
    processRow pw f buf start count i = buf i := by
  induction count with
  | zero => rfl
  | succ n ih =>
    obtain ⟨h0, h1, h2⟩ := h n (Nat.lt_succ_self n)
    unfold processRow
    rw [applyPixel_ne pw f _ _ i h0 h1 h2]
    exact ih (fun k hk => h k (Nat.lt_succ_of_lt hk))

/-- The bytes of pixel k of a row are those of a single application of the
per-pixel transform to the untouched input buffer: pixels of one row are
pairwise disjoint, so the sequential in-place loop touches each exactly
once and never feeds a transformed byte back into another pixel. -/
lemma processRow_pixel (pw : ℚ → ℚ → ℚ) (f : Vec3 → Vec3) (buf : Buffer)
    (start : ℕ) (count : ℕ) (k : ℕ) (hk : k < count) (j : ℕ) (hj : j < 3) :
    processRow pw f buf start count (start + 4 * k + j) =
      applyPixel pw f buf (start + 4 * k) (start + 4 * k + j) := by
  induction count with
  | zero => omega
  | succ n ih =>
    rcases Nat.lt_or_ge k n with hlt | hge
    · show applyPixel pw f (processRow pw f buf start n) (start + 4 * n) _ = _
      rw [applyPixel_ne pw f _ _ _ (by omega) (by omega) (by omega)]
      exact ih hlt
    · have hkn : k = n := by omega
      subst hkn
      show applyPixel pw f (processRow pw f buf start k) (start + 4 * k) _ = _
      have hread : ∀ j2, j2 < 3 →
          processRow pw f buf start k (start + 4 * k + j2) = buf (start + 4 * k + j2) := by
        intro j2 hj2
        exact processRow_ne pw f buf start k _ (fun k2 hk2 => by omega)
      refine applyPixel_congr pw f _ _ _ ?_ ?_ ?_ _ (by omega)
      · have := hread 0 (by omega)
        simpa using this
      · exact hread 1 (by omega)
      · exact hread 2 (by omega)

/-- processImage writes only bytes bytesPerRow * r + 4k + j with r < count,
k < width, j < 3. -/
lemma processImage_ne (pw : ℚ → ℚ → ℚ) (f : Vec3 → Vec3) (buf : Buffer)
    (bytesPerRow width : ℕ) (count : ℕ) (i : ℕ)
    (h : ∀ r < count, ∀ k < width,
      i ≠ bytesPerRow * r + 4 * k ∧ i ≠ bytesPerRow * r + 4 * k + 1 ∧
      i ≠ bytesPerRow * r + 4 * k + 2) :
    processImage pw f buf bytesPerRow width count i = buf i := by
  induction count with
  | zero => rfl
  | succ n ih =>
    unfold processImage
    rw [processRow_ne pw f _ _ _ i (fun k hk => h n (Nat.lt_succ_self n) k hk)]
    exact ih (fun r hr => h r (Nat.lt_succ_of_lt hr))

lemma seg_bound (bytesPerRow width r k j : ℕ) (hs : 4 * width ≤ bytesPerRow)
    (hk : k < width) (hj : j < 4) :
    bytesPerRow * r + 4 * k + j < bytesPerRow * (r + 1) := by
  have h2 : bytesPerRow * (r + 1) = bytesPerRow * r + bytesPerRow := by ring
  rw [h2]
  omega

lemma seg_mono (bytesPerRow r t : ℕ) (hr : r < t) :
    bytesPerRow * (r + 1) ≤ bytesPerRow * t := Nat.mul_le_mul_left bytesPerRow hr

/-- The bytes of pixel (r, k) of an image are those of a single application
of the per-pixel transform to the untouched input buffer, provided rows do
not overlap (stride at least width * 4): the row-major scan touches every
pixel exactly once. -/
lemma processImage_pixel (pw : ℚ → ℚ → ℚ) (f : Vec3 → Vec3) (buf : Buffer)
    (bytesPerRow width : ℕ) (hs : 4 * width ≤ bytesPerRow) (count : ℕ)
    (r : ℕ) (hr : r < count) (k : ℕ) (hk : k < width) (j : ℕ) (hj : j < 3) :
    processImage pw f buf bytesPerRow width count (bytesPerRow * r + 4 * k + j) =
      applyPixel pw f buf (bytesPerRow * r + 4 * k) (bytesPerRow * r + 4 * k + j) := by
  induction count with
  | zero => omega
  | succ t ih =>
    rcases Nat.lt_or_ge r t with hlt | hge
    · show processRow pw f (processImage pw f buf bytesPerRow width t)
        (bytesPerRow * t) width _ = _
      have hidx : bytesPerRow * r + 4 * k + j < bytesPerRow * t :=
        lt_of_lt_of_le (seg_bound bytesPerRow width r k j hs hk (by omega))
          (seg_mono bytesPerRow r t hlt)
      rw [processRow_ne pw f _ _ _ _ (fun k2 hk2 => by omega)]
      exact ih hlt
    · have hrt : r = t := by omega
      subst hrt
      show processRow pw f (processImage pw f buf bytesPerRow width r)
        (bytesPerRow * r) width _ = _
      rw [processRow_pixel pw f _ _ width k hk j hj]
      have hread : ∀ j2, j2 < 3 →
          processImage pw f buf bytesPerRow width r (bytesPerRow * r + 4 * k + j2) =
            buf (bytesPerRow * r + 4 * k + j2) := by
        intro j2 hj2
        refine processImage_ne pw f buf bytesPerRow width r _ ?_
        intro r2 hr2 k2 hk2
        have hidx : bytesPerRow * r2 + 4 * k2 + 2 < bytesPerRow * r :=
          lt_of_lt_of_le (seg_bound bytesPerRow width r2 k2 2 hs hk2 (by omega))
            (seg_mono bytesPerRow r2 r hr2)
        omega
      refine applyPixel_congr pw f _ _ _ ?_ ?_ ?_ _ (by omega)
      · have := hread 0 (by omega)
        simpa using this
      · exact hread 1 (by omega)
      · exact hread 2 (by omega)

/-- If the per-pixel transform is the identity on linear RGB, one pixel
step rewrites every processed byte with its own round trip, hence leaves
the buffer unchanged. -/
lemma applyPixel_id (pw : ℚ → ℚ → ℚ) (hpw : PowHyp pw) (f : Vec3 → Vec3)
    (hf : ∀ rgb, f rgb = rgb) (buf : Buffer) (hbuf : ∀ i, buf i ≤ 255) (base : ℕ) :
    applyPixel pw f buf base = buf := by
  funext i
  simp only [applyPixel, hf]
  split_ifs with h0 h1 h2
  · subst h0
    exact roundtrip_eq pw hpw (buf i) (hbuf i)
  · subst h1
    exact roundtrip_eq pw hpw (buf (base + 1)) (hbuf (base + 1))
  · subst h2
    exact roundtrip_eq pw hpw (buf (base + 2)) (hbuf (base + 2))
  · rfl

lemma processRow_id (pw : ℚ → ℚ → ℚ) (hpw : PowHyp pw) (f : Vec3 → Vec3)
    (hf : ∀ rgb, f rgb = rgb) (buf : Buffer) (hbuf : ∀ i, buf i ≤ 255)
    (start count : ℕ) :
    processRow pw f buf start count = buf := by
  induction count with
  | zero => rfl
  | succ n ih =>
    show applyPixel pw f (processRow pw f buf start n) (start + 4 * n) = buf
    rw [ih]
    exact applyPixel_id pw hpw f hf buf hbuf _

lemma processImage_id (pw : ℚ → ℚ → ℚ) (hpw : PowHyp pw) (f : Vec3 → Vec3)
    (hf : ∀ rgb, f rgb = rgb) (buf : Buffer) (hbuf : ∀ i, buf i ≤ 255)
    (bytesPerRow width count : ℕ) :
    processImage pw f buf bytesPerRow width count = buf := by
  induction count with
  | zero => rfl
  | succ n ih =>
    show processRow pw f (processImage pw f buf bytesPerRow width n)
      (bytesPerRow * n) width = buf
    rw [ih]
    exact processRow_id pw hpw f hf buf hbuf _ _

/-- C1: dl_simulate_cvd routes Tritan to dl_simulate_cvd_brettel1997 and
Protan and Deutan to dl_simulate_cvd_vienot1999, producing byte-identical
buffers with the same arguments. -/
theorem dispatch_tritan_brettel_redgreen_vienot (pw : ℚ → ℚ → ℚ) (severity : ℚ)
    (srgba_image : Buffer) (width height bytesPerRow : ℕ) :
    dl_simulate_cvd pw DLDeficiency.Tritan severity srgba_image width height bytesPerRow =
      dl_simulate_cvd_brettel1997 pw DLDeficiency.Tritan severity srgba_image width height bytesPerRow ∧
    dl_simulate_cvd pw DLDeficiency.Protan severity srgba_image width height bytesPerRow =
      dl_simulate_cvd_vienot1999 pw DLDeficiency.Protan severity srgba_image width height bytesPerRow ∧
    dl_simulate_cvd pw DLDeficiency.Deutan severity srgba_image width height bytesPerRow =
      dl_simulate_cvd_vienot1999 pw DLDeficiency.Deutan severity srgba_image width height bytesPerRow := by
  refine ⟨?_, ?_, ?_⟩ <;> simp [dl_simulate_cvd]

/-- C4: at severity exactly 0 every one of the three entry points leaves
each byte within plus or minus 1 of its original value (in the
exact-arithmetic model it is in fact unchanged), and at severity 1 the
per-pixel bodies produce the full simulated color. -/
theorem severity_zero_identity (pw : ℚ → ℚ → ℚ) (hpw : PowHyp pw)
    (d : DLDeficiency) (buf : Buffer) (hbuf : ∀ i, buf i ≤ 255)
    (width height bytesPerRow i : ℕ) :
    (dl_simulate_cvd pw d 0 buf width height bytesPerRow i ≤ buf i + 1 ∧
     buf i ≤ dl_simulate_cvd pw d 0 buf width height bytesPerRow i + 1) ∧
    (dl_simulate_cvd_brettel1997 pw d 0 buf width height bytesPerRow i ≤ buf i + 1 ∧
     buf i ≤ dl_simulate_cvd_brettel1997 pw d 0 buf width height bytesPerRow i + 1) ∧
    (dl_simulate_cvd_vienot1999 pw d 0 buf width height bytesPerRow i ≤ buf i + 1 ∧
     buf i ≤ dl_simulate_cvd_vienot1999 pw d 0 buf width height bytesPerRow i + 1) ∧
    (∀ (m : Mat3) (rgb : Vec3), vienotPixel m 1 rgb = mulVec m rgb) ∧
    (∀ (p : DLBrettel1997Params) (rgb : Vec3),
      brettelPixel p 1 rgb =
        mulVec
          (if rgb.1 * p.separationPlaneNormalInRgb.1 +
              rgb.2.1 * p.separationPlaneNormalInRgb.2.1 +
              rgb.2.2 * p.separationPlaneNormalInRgb.2.2 ≥ 0
           then p.rgbCvdFromRgb_1 else p.rgbCvdFromRgb_2) rgb) := by
  have hb : dl_simulate_cvd_brettel1997 pw d 0 buf width height bytesPerRow = buf := by
    unfold dl_simulate_cvd_brettel1997
    exact processImage_id pw hpw _ (brettelPixel_severity_zero (brettelParams d)) buf hbuf _ _ _
  have hv : dl_simulate_cvd_vienot1999 pw d 0 buf width height bytesPerRow = buf := by
    unfold dl_simulate_cvd_vienot1999
    exact processImage_id pw hpw _ (vienotPixel_severity_zero (vienotParams d)) buf hbuf _ _ _
  have hc : dl_simulate_cvd pw d 0 buf width height bytesPerRow = buf := by
    unfold dl_simulate_cvd
    split_ifs <;> [exact hb; exact hv]
  refine ⟨?_, ?_, ?_, ?_, ?_⟩
  · rw [hc]
    omega
  · rw [hb]
    omega
  · rw [hv]
    omega
  · exact vienotPixel_severity_one
  · exact brettelPixel_severity_one

/-- Witness for C4 at a concrete input: a constant buffer of byte 7 is
unchanged at offset 5 by a severity-0 protan call on a 2 by 2 image. -/
theorem severity_zero_identity_witness :
    dl_simulate_cvd pwAff DLDeficiency.Protan 0 (fun _ => 7) 2 2 0 5 ≤ 7 + 1 ∧
    7 ≤ dl_simulate_cvd pwAff DLDeficiency.Protan 0 (fun _ => 7) 2 2 0 5 + 1 := by
  exact (severity_zero_identity pwAff pwAff_powHyp DLDeficiency.Protan
    (fun _ => 7) (fun _ => by norm_num) 2 2 0 5).1

/-- C3: the codec round trip is within plus or minus 1 of the identity
(in the exact-arithmetic model it is the identity) and is monotone. -/
theorem codec_roundtrip_within_one_and_monotone (pw : ℚ → ℚ → ℚ)
    (hpw : PowHyp pw) (v : ℕ) (hv : v ≤ 255) :
    (sRGB_from_linearRGB pw (linearRGB_from_sRGB pw v) = v - 1 ∨
     sRGB_from_linearRGB pw (linearRGB_from_sRGB pw v) = v ∨
     sRGB_from_linearRGB pw (linearRGB_from_sRGB pw v) = v + 1) ∧
    (∀ v2 : ℕ, v2 ≤ 255 → v ≤ v2 →
      sRGB_from_linearRGB pw (linearRGB_from_sRGB pw v) ≤
        sRGB_from_linearRGB pw (linearRGB_from_sRGB pw v2)) := by
  constructor
  · right
    left
    exact roundtrip_eq pw hpw v hv
  · intro v2 hv2 h12
    rw [roundtrip_eq pw hpw v hv, roundtrip_eq pw hpw v2 hv2]
    exact h12

/-- Witness for C3 at the concrete byte 200. -/
theorem codec_roundtrip_witness :
    sRGB_from_linearRGB pwAff (linearRGB_from_sRGB pwAff 200) = 200 - 1 ∨
    sRGB_from_linearRGB pwAff (linearRGB_from_sRGB pwAff 200) = 200 ∨
    sRGB_from_linearRGB pwAff (linearRGB_from_sRGB pwAff 200) = 200 + 1 :=
  (codec_roundtrip_within_one_and_monotone pwAff pwAff_powHyp 200 (by norm_num)).1

/-- C5: in the Brettel per-pixel transform the plane-1 matrix is applied
exactly when the dot product of the linear RGB vector with the separation
plane normal is nonnegative (a dot product of exactly 0 selects plane 1),
and the plane-2 matrix is applied otherwise. -/
theorem brettel_plane_selection (p : DLBrettel1997Params) (severity : ℚ) (rgb : Vec3) :
    (rgb.1 * p.separationPlaneNormalInRgb.1 +
       rgb.2.1 * p.separationPlaneNormalInRgb.2.1 +
       rgb.2.2 * p.separationPlaneNormalInRgb.2.2 ≥ 0 →
      brettelPixel p severity rgb =
        ((mulVec p.rgbCvdFromRgb_1 rgb).1 * severity + rgb.1 * (1 - severity),
         (mulVec p.rgbCvdFromRgb_1 rgb).2.1 * severity + rgb.2.1 * (1 - severity),
         (mulVec p.rgbCvdFromRgb_1 rgb).2.2 * severity + rgb.2.2 * (1 - severity))) ∧
    (rgb.1 * p.separationPlaneNormalInRgb.1 +
       rgb.2.1 * p.separationPlaneNormalInRgb.2.1 +
       rgb.2.2 * p.separationPlaneNormalInRgb.2.2 < 0 →
      brettelPixel p severity rgb =
        ((mulVec p.rgbCvdFromRgb_2 rgb).1 * severity + rgb.1 * (1 - severity),
         (mulVec p.rgbCvdFromRgb_2 rgb).2.1 * severity + rgb.2.1 * (1 - severity),
         (mulVec p.rgbCvdFromRgb_2 rgb).2.2 * severity + rgb.2.2 * (1 - severity))) := by
  constructor
  · intro h
    simp only [brettelPixel]
    rw [if_pos h]
  · intro h
    simp only [brettelPixel]
    rw [if_neg (by push_neg; exact h)]

/-- Witness for C5: with the tritan parameters, pure red has a positive
dot product and is transformed with the plane-1 matrix, pure green has a
negative one and is transformed with the plane-2 matrix. -/
theorem brettel_plane_selection_witness :
    brettelPixel brettel_tritan_params 1 ((1 : ℚ), 0, 0) =
      ((mulVec brettel_tritan_params.rgbCvdFromRgb_1 ((1 : ℚ), 0, 0)).1 * 1 +
         ((1 : ℚ), (0 : ℚ), (0 : ℚ)).1 * (1 - 1),
       (mulVec brettel_tritan_params.rgbCvdFromRgb_1 ((1 : ℚ), 0, 0)).2.1 * 1 +
         ((1 : ℚ), (0 : ℚ), (0 : ℚ)).2.1 * (1 - 1),
       (mulVec brettel_tritan_params.rgbCvdFromRgb_1 ((1 : ℚ), 0, 0)).2.2 * 1 +
         ((1 : ℚ), (0 : ℚ), (0 : ℚ)).2.2 * (1 - 1)) ∧
    brettelPixel brettel_tritan_params 1 ((0 : ℚ), 1, 0) =
      ((mulVec brettel_tritan_params.rgbCvdFromRgb_2 ((0 : ℚ), 1, 0)).1 * 1 +
         ((0 : ℚ), (1 : ℚ), (0 : ℚ)).1 * (1 - 1),
       (mulVec brettel_tritan_params.rgbCvdFromRgb_2 ((0 : ℚ), 1, 0)).2.1 * 1 +
         ((0 : ℚ), (1 : ℚ), (0 : ℚ)).2.1 * (1 - 1),
       (mulVec brettel_tritan_params.rgbCvdFromRgb_2 ((0 : ℚ), 1, 0)).2.2 * 1 +
         ((0 : ℚ), (1 : ℚ), (0 : ℚ)).2.2 * (1 - 1)) := by
  constructor
  · exact (brettel_plane_selection brettel_tritan_params 1 ((1 : ℚ), 0, 0)).1
      (by norm_num [brettel_tritan_params])
  · exact (brettel_plane_selection brettel_tritan_params 1 ((0 : ℚ), 1, 0)).2
      (by norm_num [brettel_tritan_params])

/-- The effective row stride: bytesPerRow, defaulted to width * 4 when 0,
as computed at the top of both transform entry points. -/
def strideOf (width bytesPerRow : ℕ) : ℕ :=
  if bytesPerRow = 0 then width * 4 else bytesPerRow

lemma brettel_eq_processImage (pw : ℚ → ℚ → ℚ) (d : DLDeficiency) (severity : ℚ)
    (buf : Buffer) (width height bytesPerRow : ℕ) :
    dl_simulate_cvd_brettel1997 pw d severity buf width height bytesPerRow =
      processImage pw (brettelPixel (brettelParams d) severity) buf
        (strideOf width bytesPerRow) width height := rfl

lemma vienot_eq_processImage (pw : ℚ → ℚ → ℚ) (d : DLDeficiency) (severity : ℚ)
    (buf : Buffer) (width height bytesPerRow : ℕ) :
    dl_simulate_cvd_vienot1999 pw d severity buf width height bytesPerRow =
      processImage pw (vienotPixel (vienotParams d) severity) buf
        (strideOf width bytesPerRow) width height := rfl


lemma byteOfRat_eq (n : ℕ) {x : ℚ} (h1 : (n : ℚ) ≤ x) (h2 : x < (n : ℚ) + 1) :
    byteOfRat x = n := by
  unfold byteOfRat
  have h : Int.floor x = (n : ℤ) := by
    rw [Int.floor_eq_iff]
    constructor
    · exact_mod_cast h1
    · push_cast
      exact h2
  rw [h]
  exact Int.toNat_natCast n

lemma processImage_one_one (pw : ℚ → ℚ → ℚ) (f : Vec3 → Vec3) (buf : Buffer) (s : ℕ) :
    processImage pw f buf s 1 1 = applyPixel pw f buf 0 := by
  simp [processImage, processRow]

lemma applyPixel_at2 (pw : ℚ → ℚ → ℚ) (f : Vec3 → Vec3) (buf : Buffer) (base : ℕ) :
    applyPixel pw f buf base (base + 2) =
      sRGB_from_linearRGB pw
        ((f (linearRGB_from_sRGB pw (buf base),
             linearRGB_from_sRGB pw (buf (base + 1)),
             linearRGB_from_sRGB pw (buf (base + 2)))).2.2) := by
  unfold applyPixel
  rw [if_neg (by omega), if_neg (by omega), if_pos rfl]

lemma brettel_lms_eq_processImage (pw : ℚ → ℚ → ℚ) (d : DLDeficiency) (severity : ℚ)
    (buf : Buffer) (width height bytesPerRow : ℕ) :
    dl_simulate_cvd_brettel1997_lms pw d severity buf width height bytesPerRow =
      processImage pw
        (brettelPixelLms LMS_from_linearRGB linearRGB_from_LMS
          (brettelParamsLms d) severity) buf
        (strideOf width bytesPerRow) width height := rfl

lemma strideOf_ge (width bytesPerRow : ℕ)
    (hs : bytesPerRow = 0 ∨ 4 * width ≤ bytesPerRow) :
    4 * width ≤ strideOf width bytesPerRow := by
  unfold strideOf
  by_cases h0 : bytesPerRow = 0
  · rw [if_pos h0]
    omega
  · rw [if_neg h0]
    rcases hs with h | h
    · exact absurd h h0
    · exact h

/-- No write of the image walk lands on an alpha byte of a valid pixel. -/
lemma processImage_alpha (pw : ℚ → ℚ → ℚ) (f : Vec3 → Vec3) (buf : Buffer)
    (bpr width height : ℕ) (hs : 4 * width ≤ bpr) (r k : ℕ) (hk : k < width) :
    processImage pw f buf bpr width height (bpr * r + 4 * k + 3) =
      buf (bpr * r + 4 * k + 3) := by
  refine processImage_ne pw f buf bpr width height _ ?_
  intro r2 hr2 k2 hk2
  rcases lt_trichotomy r2 r with h | h | h
  · have h1 : bpr * r2 + 4 * k2 + 2 < bpr * r :=
      lt_of_lt_of_le (seg_bound bpr width r2 k2 2 hs hk2 (by omega))
        (seg_mono bpr r2 r h)
    omega
  · subst h
    omega
  · have h1 : bpr * r + 4 * k + 3 < bpr * r2 :=
      lt_of_lt_of_le (seg_bound bpr width r k 3 hs hk (by omega))
        (seg_mono bpr r r2 h)
    omega

/-- No write of the image walk lands on a padding byte: inside each row
only the first width * 4 bytes are written. -/
lemma processImage_padding (pw : ℚ → ℚ → ℚ) (f : Vec3 → Vec3) (buf : Buffer)
    (bpr width height : ℕ) (hs : 4 * width ≤ bpr) (r dd : ℕ)
    (hd1 : 4 * width ≤ dd) (hd2 : dd < bpr) :
    processImage pw f buf bpr width height (bpr * r + dd) = buf (bpr * r + dd) := by
  refine processImage_ne pw f buf bpr width height _ ?_
  intro r2 hr2 k2 hk2
  rcases lt_trichotomy r2 r with h | h | h
  · have h1 : bpr * r2 + 4 * k2 + 2 < bpr * r :=
      lt_of_lt_of_le (seg_bound bpr width r2 k2 2 hs hk2 (by omega))
        (seg_mono bpr r2 r h)
    omega
  · subst h
    have h4 : 4 * k2 + 2 < 4 * width := by omega
    omega
  · have h1 : bpr * r + dd < bpr * (r + 1) := by
      have he : bpr * (r + 1) = bpr * r + bpr := by ring
      omega
    have h2 : bpr * (r + 1) ≤ bpr * r2 := seg_mono bpr r r2 h
    omega

/-- C6: the alpha byte of every pixel is byte-identical before and after
a call to any of the three entry points. -/
theorem alpha_preserved (pw : ℚ → ℚ → ℚ) (d : DLDeficiency) (severity : ℚ)
    (buf : Buffer) (width height bytesPerRow : ℕ)
    (hs : bytesPerRow = 0 ∨ 4 * width ≤ bytesPerRow)
    (r k : ℕ) (hr : r < height) (hk : k < width) :
    dl_simulate_cvd pw d severity buf width height bytesPerRow
        (strideOf width bytesPerRow * r + 4 * k + 3) =
      buf (strideOf width bytesPerRow * r + 4 * k + 3) ∧
    dl_simulate_cvd_brettel1997 pw d severity buf width height bytesPerRow
        (strideOf width bytesPerRow * r + 4 * k + 3) =
      buf (strideOf width bytesPerRow * r + 4 * k + 3) ∧
    dl_simulate_cvd_vienot1999 pw d severity buf width height bytesPerRow
        (strideOf width bytesPerRow * r + 4 * k + 3) =
      buf (strideOf width bytesPerRow * r + 4 * k + 3) := by
  have hs4 : 4 * width ≤ strideOf width bytesPerRow := strideOf_ge width bytesPerRow hs
  have hb : dl_simulate_cvd_brettel1997 pw d severity buf width height bytesPerRow
      (strideOf width bytesPerRow * r + 4 * k + 3) =
      buf (strideOf width bytesPerRow * r + 4 * k + 3) := by
    rw [brettel_eq_processImage]
    exact processImage_alpha pw _ buf _ width height hs4 r k hk
  have hv : dl_simulate_cvd_vienot1999 pw d severity buf width height bytesPerRow
      (strideOf width bytesPerRow * r + 4 * k + 3) =
      buf (strideOf width bytesPerRow * r + 4 * k + 3) := by
    rw [vienot_eq_processImage]
    exact processImage_alpha pw _ buf _ width height hs4 r k hk
  refine ⟨?_, hb, hv⟩
  unfold dl_simulate_cvd
  split_ifs <;> [exact hb; exact hv]

/-- Witness for C6 on a concrete 1 by 1 buffer with default stride. -/
theorem alpha_preserved_witness :
    dl_simulate_cvd pwAff DLDeficiency.Protan 1 (fun _ => 9) 1 1 0
        (strideOf 1 0 * 0 + 4 * 0 + 3) =
      (fun _ : ℕ => (9 : ℕ)) (strideOf 1 0 * 0 + 4 * 0 + 3) :=
  (alpha_preserved pwAff DLDeficiency.Protan 1 (fun _ => 9) 1 1 0
    (Or.inl rfl) 0 0 (by norm_num) (by norm_num)).1

/-- C7: the buffer walk treats bytesPerRow = 0 as width * 4, transforms
every pixel exactly once from its original bytes (row-major, no pixel
skipped or duplicated, nothing fed back between pixels), and within each
row writes only the first width * 4 bytes, leaving padding bytes between
width * 4 and the row stride unchanged; for all three entry points. -/
theorem buffer_walk_total_scan (pw : ℚ → ℚ → ℚ) (d : DLDeficiency) (severity : ℚ)
    (buf : Buffer) (width height bytesPerRow : ℕ)
    (hs : bytesPerRow = 0 ∨ 4 * width ≤ bytesPerRow) :
    (dl_simulate_cvd pw d severity buf width height 0 =
       dl_simulate_cvd pw d severity buf width height (width * 4) ∧
     dl_simulate_cvd_brettel1997 pw d severity buf width height 0 =
       dl_simulate_cvd_brettel1997 pw d severity buf width height (width * 4) ∧
     dl_simulate_cvd_vienot1999 pw d severity buf width height 0 =
       dl_simulate_cvd_vienot1999 pw d severity buf width height (width * 4)) ∧
    (∀ r k j, r < height → k < width → j < 3 →
      dl_simulate_cvd_brettel1997 pw d severity buf width height bytesPerRow
          (strideOf width bytesPerRow * r + 4 * k + j) =
        applyPixel pw (brettelPixel (brettelParams d) severity) buf
          (strideOf width bytesPerRow * r + 4 * k)
          (strideOf width bytesPerRow * r + 4 * k + j) ∧
      dl_simulate_cvd_vienot1999 pw d severity buf width height bytesPerRow
          (strideOf width bytesPerRow * r + 4 * k + j) =
        applyPixel pw (vienotPixel (vienotParams d) severity) buf
          (strideOf width bytesPerRow * r + 4 * k)
          (strideOf width bytesPerRow * r + 4 * k + j) ∧
      dl_simulate_cvd pw d severity buf width height bytesPerRow
          (strideOf width bytesPerRow * r + 4 * k + j) =
        applyPixel pw
          (if d = DLDeficiency.Tritan then brettelPixel (brettelParams d) severity
           else vienotPixel (vienotParams d) severity) buf
          (strideOf width bytesPerRow * r + 4 * k)
          (strideOf width bytesPerRow * r + 4 * k + j)) ∧
    (∀ r dd, r < height → 4 * width ≤ dd → dd < strideOf width bytesPerRow →
      dl_simulate_cvd pw d severity buf width height bytesPerRow
          (strideOf width bytesPerRow * r + dd) =
        buf (strideOf width bytesPerRow * r + dd) ∧
      dl_simulate_cvd_brettel1997 pw d severity buf width height bytesPerRow
          (strideOf width bytesPerRow * r + dd) =
        buf (strideOf width bytesPerRow * r + dd) ∧
      dl_simulate_cvd_vienot1999 pw d severity buf width height bytesPerRow
          (strideOf width bytesPerRow * r + dd) =
        buf (strideOf width bytesPerRow * r + dd)) := by
  have hs4 : 4 * width ≤ strideOf width bytesPerRow := strideOf_ge width bytesPerRow hs
  refine ⟨⟨?_, ?_, ?_⟩, ?_, ?_⟩
  · unfold dl_simulate_cvd
    split_ifs <;> simp [dl_simulate_cvd_brettel1997, dl_simulate_cvd_vienot1999]
  · simp [dl_simulate_cvd_brettel1997]
  · simp [dl_simulate_cvd_vienot1999]
  · intro r k j hr hk hj
    have hbp : dl_simulate_cvd_brettel1997 pw d severity buf width height bytesPerRow
        (strideOf width bytesPerRow * r + 4 * k + j) =
        applyPixel pw (brettelPixel (brettelParams d) severity) buf
          (strideOf width bytesPerRow * r + 4 * k)
          (strideOf width bytesPerRow * r + 4 * k + j) := by
      rw [brettel_eq_processImage]
      exact processImage_pixel pw _ buf _ width hs4 height r hr k hk j hj
    have hvp : dl_simulate_cvd_vienot1999 pw d severity buf width height bytesPerRow
        (strideOf width bytesPerRow * r + 4 * k + j) =
        applyPixel pw (vienotPixel (vienotParams d) severity) buf
          (strideOf width bytesPerRow * r + 4 * k)
          (strideOf width bytesPerRow * r + 4 * k + j) := by
      rw [vienot_eq_processImage]
      exact processImage_pixel pw _ buf _ width hs4 height r hr k hk j hj
    refine ⟨hbp, hvp, ?_⟩
    unfold dl_simulate_cvd
    split_ifs with hd
    · exact hbp
    · exact hvp
  · intro r dd hr hd1 hd2
    have hbp : dl_simulate_cvd_brettel1997 pw d severity buf width height bytesPerRow
        (strideOf width bytesPerRow * r + dd) =
        buf (strideOf width bytesPerRow * r + dd) := by
      rw [brettel_eq_processImage]
      exact processImage_padding pw _ buf _ width height hs4 r dd hd1 hd2
    have hvp : dl_simulate_cvd_vienot1999 pw d severity buf width height bytesPerRow
        (strideOf width bytesPerRow * r + dd) =
        buf (strideOf width bytesPerRow * r + dd) := by
      rw [vienot_eq_processImage]
      exact processImage_padding pw _ buf _ width height hs4 r dd hd1 hd2
    refine ⟨?_, hbp, hvp⟩
    unfold dl_simulate_cvd
    split_ifs <;> [exact hbp; exact hvp]

/-- Witness for C7 on a concrete 1 by 1 buffer with a padded stride of 8:
pixel bytes get exactly one transform application, byte 5 (padding) is
untouched, and the zero stride call matches the width * 4 call. -/
theorem buffer_walk_total_scan_witness :
    (dl_simulate_cvd_vienot1999 pwAff DLDeficiency.Deutan 1 (fun _ => 3) 1 1 0 =
       dl_simulate_cvd_vienot1999 pwAff DLDeficiency.Deutan 1 (fun _ => 3) 1 1 (1 * 4)) ∧
    dl_simulate_cvd_vienot1999 pwAff DLDeficiency.Deutan 1 (fun _ => 3) 1 1 8
        (strideOf 1 8 * 0 + 4 * 0 + 0) =
      applyPixel pwAff (vienotPixel (vienotParams DLDeficiency.Deutan) 1) (fun _ => 3)
        (strideOf 1 8 * 0 + 4 * 0) (strideOf 1 8 * 0 + 4 * 0 + 0) ∧
    dl_simulate_cvd pwAff DLDeficiency.Deutan 1 (fun _ => 3) 1 1 8
        (strideOf 1 8 * 0 + 5) =
      (fun _ : ℕ => (3 : ℕ)) (strideOf 1 8 * 0 + 5) := by
  have T := buffer_walk_total_scan pwAff DLDeficiency.Deutan 1 (fun _ => 3) 1 1 8
    (Or.inr (by norm_num))
  have T0 := buffer_walk_total_scan pwAff DLDeficiency.Deutan 1 (fun _ => 3) 1 1 0
    (Or.inl rfl)
  exact ⟨T0.1.2.2,
    (T.2.1 0 0 0 (by norm_num) (by norm_num) (by norm_num)).2.1,
    (T.2.2 0 5 (by norm_num) (by norm_num) (by norm_num [strideOf])).1⟩

lemma brettelParamsInt_none (n : ℕ) (hn : 3 ≤ n) : brettelParamsInt n = none := by
  obtain ⟨m, rfl⟩ : ∃ m, n = m + 3 := ⟨n - 3, by omega⟩
  rfl

lemma vienotParamsInt_none (n : ℕ) (hn : 3 ≤ n) : vienotParamsInt n = none := by
  obtain ⟨m, rfl⟩ : ∃ m, n = m + 3 := ⟨n - 3, by omega⟩
  rfl

/-- C9: called with an integer deficiency value outside the three enum
variants, the switch matches no case, the parameter pointer stays NULL
and each entry point fails at the first processed pixel instead of
transforming the buffer (the failure is the modelled none). -/
theorem invalid_deficiency_fails (pw : ℚ → ℚ → ℚ) (n : ℕ) (severity : ℚ)
    (buf : Buffer) (width height bytesPerRow : ℕ) (hn : 3 ≤ n)
    (hw : 0 < width) (hh : 0 < height) :
    dl_simulate_cvd_brettel1997_int pw n severity buf width height bytesPerRow = none ∧
    dl_simulate_cvd_vienot1999_int pw n severity buf width height bytesPerRow = none ∧
    dl_simulate_cvd_int pw n severity buf width height bytesPerRow = none := by
  have hb : dl_simulate_cvd_brettel1997_int pw n severity buf width height bytesPerRow
      = none := by
    unfold dl_simulate_cvd_brettel1997_int
    rw [brettelParamsInt_none n hn]
    simp only []
    rw [if_neg (by omega)]
  have hv : dl_simulate_cvd_vienot1999_int pw n severity buf width height bytesPerRow
      = none := by
    unfold dl_simulate_cvd_vienot1999_int
    rw [vienotParamsInt_none n hn]
    simp only []
    rw [if_neg (by omega)]
  refine ⟨hb, hv, ?_⟩
  unfold dl_simulate_cvd_int
  split_ifs <;> [exact hb; exact hv]

/-- Witness for C9 at the concrete out-of-range value 3. -/
theorem invalid_deficiency_fails_witness :
    dl_simulate_cvd_brettel1997_int pwAff 3 1 (fun _ => 0) 1 1 0 = none ∧
    dl_simulate_cvd_vienot1999_int pwAff 3 1 (fun _ => 0) 1 1 0 = none ∧
    dl_simulate_cvd_int pwAff 3 1 (fun _ => 0) 1 1 0 = none :=
  invalid_deficiency_fails pwAff 3 1 (fun _ => 0) 1 1 0 (by norm_num)
    (by norm_num) (by norm_num)

/-- The encoder exactly as claim C2 words it: clamp, then round with
add-0.5-and-truncate semantics in BOTH non-clamped branches. -/
def claimedEncoder (pw : ℚ → ℚ → ℚ) (v : ℚ) : ℕ :=
  if v ≤ 0 then 0
  else if v ≥ 1 then 255
  else if v < 0.0031308 then byteOfRat (v * 12.92 * 255 + 0.5)
  else byteOfRat (255 * (1.055 * pw v (1 / 2.4) - 0.055) + 0.5)

/-- The encoder with the rounding the source actually performs: add 0.5
and truncate only in the low branch; the power branch truncates without
adding 0.5. -/
def correctedEncoder (pw : ℚ → ℚ → ℚ) (v : ℚ) : ℕ :=
  if v ≤ 0 then 0
  else if v ≥ 1 then 255
  else if v < 0.0031308 then byteOfRat (v * 12.92 * 255 + 0.5)
  else byteOfRat (255 * (1.055 * pw v (1 / 2.4) - 0.055))

/-- Counterexample to C2: at linear value 0.51 (with the power function
instantiated by the exact affine pair pwAff) the source encoder truncates
to 134 while the add-0.5-and-truncate encoder of the claim yields 135. -/
theorem encoder_rounding_counterexample :
    sRGB_from_linearRGB pwAff 0.51 = 134 ∧ claimedEncoder pwAff 0.51 = 135 := by
  constructor
  · unfold sRGB_from_linearRGB
    rw [if_neg (by norm_num), if_neg (by norm_num), if_neg (by norm_num)]
    rw [pwAff, if_pos rfl]
    exact byteOfRat_eq 134 (by norm_num) (by norm_num)
  · unfold claimedEncoder
    rw [if_neg (by norm_num), if_neg (by norm_num), if_neg (by norm_num)]
    rw [pwAff, if_pos rfl]
    exact byteOfRat_eq 135 (by norm_num) (by norm_num)

/-- C2 amended: the encoder returns 0 for v at most 0, 255 for v at least
1, trunc(v * 12.92 * 255 + 0.5) for small positive v, and otherwise
trunc(255 * (1.055 * v^(1/2.4) - 0.055)) with NO added 0.5: the
add-0.5-and-truncate rounding applies only to the low branch. -/
theorem encoder_branches (pw : ℚ → ℚ → ℚ) (v : ℚ) :
    sRGB_from_linearRGB pw v = correctedEncoder pw v := by
  unfold sRGB_from_linearRGB correctedEncoder
  split_ifs with h0 h1 h2
  · rfl
  · rfl
  · congr 1
    ring
  · congr 1
    ring


/-- The concrete input pixel of the C8 counterexample: bytes (2, 0, 3, 0). -/
def bufC8 : Buffer := fun i => if i = 0 then 2 else if i = 2 then 3 else 0

/-- Counterexample to C8: on the pixel with sRGB bytes (2, 0, 3) at
severity 1 for Tritan, the combined-matrix Brettel file writes blue byte
1 while the explicit-LMS Brettel file writes blue byte 0; the two copies
store constants of different generations and are not byte-identical.
The input and both outputs stay in the codec branches that do not consult
the power function. -/
theorem brettel_formulations_counterexample :
    dl_simulate_cvd_brettel1997 pwAff DLDeficiency.Tritan 1 bufC8 1 1 0 2 = 1 ∧
    dl_simulate_cvd_brettel1997_lms pwAff DLDeficiency.Tritan 1 bufC8 1 1 0 2 = 0 := by
  constructor
  · rw [brettel_eq_processImage]
    rw [show strideOf 1 0 = 4 from by norm_num [strideOf]]
    rw [processImage_one_one]
    show applyPixel pwAff (brettelPixel (brettelParams DLDeficiency.Tritan) 1) bufC8 0 (0 + 2) = 1
    rw [applyPixel_at2]
    rw [show bufC8 0 = 2 from rfl, show bufC8 (0 + 1) = 0 from rfl,
        show bufC8 (0 + 2) = 3 from rfl]
    rw [decode_low pwAff 2 (by norm_num), decode_low pwAff 0 (by norm_num),
        decode_low pwAff 3 (by norm_num)]
    have hb : ((brettelPixel (brettelParams DLDeficiency.Tritan) 1
        (((2 : ℕ) : ℚ) / 3294.6, ((0 : ℕ) : ℚ) / 3294.6, ((3 : ℕ) : ℚ) / 3294.6))).2.2 =
        50911 / 329460000 := by
      simp only [brettelParams, brettelPixel]
      rw [if_pos (by norm_num [brettel_tritan_params])]
      norm_num [brettel_tritan_params, mulVec, dotv]
    rw [hb]
    unfold sRGB_from_linearRGB
    rw [if_neg (by norm_num), if_neg (by norm_num), if_pos (by norm_num)]
    exact byteOfRat_eq 1 (by norm_num) (by norm_num)
  · rw [brettel_lms_eq_processImage]
    rw [show strideOf 1 0 = 4 from by norm_num [strideOf]]
    rw [processImage_one_one]
    show applyPixel pwAff
      (brettelPixelLms LMS_from_linearRGB linearRGB_from_LMS
        (brettelParamsLms DLDeficiency.Tritan) 1) bufC8 0 (0 + 2) = 0
    rw [applyPixel_at2]
    rw [show bufC8 0 = 2 from rfl, show bufC8 (0 + 1) = 0 from rfl,
        show bufC8 (0 + 2) = 3 from rfl]
    rw [decode_low pwAff 2 (by norm_num), decode_low pwAff 0 (by norm_num),
        decode_low pwAff 3 (by norm_num)]
    have hb : ((brettelPixelLms LMS_from_linearRGB linearRGB_from_LMS
        (brettelParamsLms DLDeficiency.Tritan) 1
        (((2 : ℕ) : ℚ) / 3294.6, ((0 : ℕ) : ℚ) / 3294.6, ((3 : ℕ) : ℚ) / 3294.6))).2.2 =
        121687892088227 / 823650000000000000 := by
      simp only [brettelParamsLms, brettelPixelLms]
      rw [if_pos (by norm_num [brettel_tritan_params_lms, LMS_from_linearRGB, mulVec, dotv])]
      norm_num [brettel_tritan_params_lms, LMS_from_linearRGB, linearRGB_from_LMS,
        mulVec, dotv, setElem, vecElem]
    rw [hb]
    unfold sRGB_from_linearRGB
    rw [if_neg (by norm_num), if_neg (by norm_num), if_pos (by norm_num)]
    exact byteOfRat_eq 0 (by norm_num) (by norm_num)


lemma mulVec_add_smul (B : Mat3) (s t : ℚ) (x y : Vec3) :
    mulVec B (s * x.1 + t * y.1, s * x.2.1 + t * y.2.1, s * x.2.2 + t * y.2.2) =
      (s * (mulVec B x).1 + t * (mulVec B y).1,
       s * (mulVec B x).2.1 + t * (mulVec B y).2.1,
       s * (mulVec B x).2.2 + t * (mulVec B y).2.2) := by
  obtain ⟨b1, b2, b3⟩ := B
  obtain ⟨x1, x2, x3⟩ := x
  obtain ⟨y1, y2, y3⟩ := y
  simp only [mulVec, dotv, Prod.mk.injEq]
  refine ⟨by ring, by ring, by ring⟩

lemma setElem_blend (lms : Vec3) (k : Fin 3) (p s : ℚ) :
    setElem lms k (p * s + vecElem lms k * (1 - s)) =
      (s * (setElem lms k p).1 + (1 - s) * lms.1,
       s * (setElem lms k p).2.1 + (1 - s) * lms.2.1,
       s * (setElem lms k p).2.2 + (1 - s) * lms.2.2) := by
  obtain ⟨a, b, c⟩ := lms
  rcases k with ⟨kk, hkk⟩
  interval_cases kk <;>
    · simp only [setElem, vecElem, Prod.mk.injEq]
      refine ⟨by ring, by ring, by ring⟩

/-- C8 amended: the combined-matrix Brettel formulation and the
explicit-LMS Brettel formulation produce identical per-pixel results and
identical output buffers whenever their constants are consistent: the
LMS basis pair must compose to the identity and the combined matrices and
RGB-space normal must be exactly the composites of the LMS-version
projection rows and normal.  (The repository's two copies store rounded
constants of different generations, which violate these side conditions
and differ on concrete pixels.) -/
theorem brettel_formulations_equiv (L B : Mat3) (plms : DLBrettel1997ParamsLms)
    (pc : DLBrettel1997Params) (severity : ℚ)
    (hinv : ∀ v : Vec3, mulVec B (mulVec L v) = v)
    (h1 : ∀ v : Vec3, mulVec pc.rgbCvdFromRgb_1 v =
      mulVec B (setElem (mulVec L v) plms.lmsElementToProject
        (dotv plms.projectionOnPlane1 (mulVec L v))))
    (h2 : ∀ v : Vec3, mulVec pc.rgbCvdFromRgb_2 v =
      mulVec B (setElem (mulVec L v) plms.lmsElementToProject
        (dotv plms.projectionOnPlane2 (mulVec L v))))
    (hn : ∀ v : Vec3,
      v.1 * pc.separationPlaneNormalInRgb.1 + v.2.1 * pc.separationPlaneNormalInRgb.2.1 +
        v.2.2 * pc.separationPlaneNormalInRgb.2.2 =
      dotv (mulVec L v) plms.separationPlaneNormal) :
    (∀ rgb : Vec3, brettelPixel pc severity rgb = brettelPixelLms L B plms severity rgb) ∧
    (∀ (pw : ℚ → ℚ → ℚ) (buf : Buffer) (width height bytesPerRow : ℕ),
      processImage pw (brettelPixel pc severity) buf bytesPerRow width height =
        processImage pw (brettelPixelLms L B plms severity) buf bytesPerRow width height) := by
  have hpix : ∀ rgb : Vec3,
      brettelPixel pc severity rgb = brettelPixelLms L B plms severity rgb := by
    intro rgb
    simp only [brettelPixel, brettelPixelLms]
    rw [hn rgb]
    split_ifs with hdot
    · rw [setElem_blend, mulVec_add_smul, hinv rgb, ← h1 rgb]
      simp only [Prod.mk.injEq]
      refine ⟨by ring, by ring, by ring⟩
    · rw [setElem_blend, mulVec_add_smul, hinv rgb, ← h2 rgb]
      simp only [Prod.mk.injEq]
      refine ⟨by ring, by ring, by ring⟩
  refine ⟨hpix, ?_⟩
  intro pw buf width height bytesPerRow
  have hf : brettelPixel pc severity = brettelPixelLms L B plms severity :=
    funext hpix
  rw [hf]

/-- Identity matrix used by the C8 witness. -/
def idMat : Mat3 := ((1, 0, 0), (0, 1, 0), (0, 0, 1))

/-- A consistent LMS parameter set used by the C8 witness. -/
def brettelParamsLmsW : DLBrettel1997ParamsLms :=
  { lmsElementToProject := 0
    projectionOnPlane1 := (0, 2, -5)
    projectionOnPlane2 := (0, 1, 2)
    separationPlaneNormal := (1, -1, 0) }

/-- The combined parameter set composed exactly from brettelParamsLmsW
with the identity LMS basis. -/
def brettelParamsW : DLBrettel1997Params :=
  { rgbCvdFromRgb_1 := ((0, 2, -5), (0, 1, 0), (0, 0, 1))
    rgbCvdFromRgb_2 := ((0, 1, 2), (0, 1, 0), (0, 0, 1))
    separationPlaneNormalInRgb := (1, -1, 0) }

/-- Witness for the amended C8 at a concrete pixel and severity. -/
theorem brettel_formulations_equiv_witness :
    brettelPixel brettelParamsW (1 / 2) ((1 : ℚ), 2, 3) =
      brettelPixelLms idMat idMat brettelParamsLmsW (1 / 2) ((1 : ℚ), 2, 3) := by
  have T := brettel_formulations_equiv idMat idMat brettelParamsLmsW brettelParamsW (1 / 2)
    (by
      intro v
      obtain ⟨a, b, c⟩ := v
      simp only [idMat, mulVec, dotv, Prod.mk.injEq]
      refine ⟨by ring, by ring, by ring⟩)
    (by
      intro v
      obtain ⟨a, b, c⟩ := v
      simp only [idMat, brettelParamsW, brettelParamsLmsW, mulVec, dotv, setElem,
        Prod.mk.injEq]
      refine ⟨by ring, by ring, by ring⟩)
    (by
      intro v
      obtain ⟨a, b, c⟩ := v
      simp only [idMat, brettelParamsW, brettelParamsLmsW, mulVec, dotv, setElem,
        Prod.mk.injEq]
      refine ⟨by ring, by ring, by ring⟩)
    (by
      intro v
      obtain ⟨a, b, c⟩ := v
      simp only [idMat, brettelParamsW, brettelParamsLmsW, mulVec, dotv]
      ring)
  exact T.1 ((1 : ℚ), 2, 3)

/-- The relation claim C10 can soundly assert between one channel's
original linear value o, blended linear value x, and full-severity linear
value m: x is strictly between o and m when they differ, equals them when
they are equal, and the encoded bytes are non-strictly between the
encoded endpoints. -/
def BlendBetween (pw : ℚ → ℚ → ℚ) (o x m : ℚ) : Prop :=
  (o < m → o < x ∧ x < m) ∧
  (m < o → m < x ∧ x < o) ∧
  (o = m → x = o) ∧
  min (sRGB_from_linearRGB pw o) (sRGB_from_linearRGB pw m) ≤ sRGB_from_linearRGB pw x ∧
  sRGB_from_linearRGB pw x ≤ max (sRGB_from_linearRGB pw o) (sRGB_from_linearRGB pw m)

lemma blendBetween_core (pw : ℚ → ℚ → ℚ) (hpw : PowEncHyp pw) (o m s : ℚ)
    (h0 : 0 < s) (h1 : s < 1) :
    BlendBetween pw o (s * m + (1 - s) * o) m := by
  have hlo : min o m ≤ s * m + (1 - s) * o := by
    rcases le_total o m with h | h
    · rw [min_eq_left h]
      nlinarith
    · rw [min_eq_right h]
      nlinarith
  have hhi : s * m + (1 - s) * o ≤ max o m := by
    rcases le_total o m with h | h
    · rw [max_eq_right h]
      nlinarith
    · rw [max_eq_left h]
      nlinarith
  refine ⟨?_, ?_, ?_, ?_, ?_⟩
  · intro h
    constructor <;> nlinarith
  · intro h
    constructor <;> nlinarith
  · intro h
    rw [h]
    ring
  · rcases le_total o m with h | h
    · have ho : o ≤ s * m + (1 - s) * o := by
        have hx := hlo
        rw [min_eq_left h] at hx
        exact hx
      exact le_trans (min_le_left _ _) (sRGB_from_linearRGB_mono pw hpw ho)
    · have hm : m ≤ s * m + (1 - s) * o := by
        have hx := hlo
        rw [min_eq_right h] at hx
        exact hx
      exact le_trans (min_le_right _ _) (sRGB_from_linearRGB_mono pw hpw hm)
  · rcases le_total o m with h | h
    · have hm2 : s * m + (1 - s) * o ≤ m := by
        have hx := hhi
        rw [max_eq_right h] at hx
        exact hx
      exact le_trans (sRGB_from_linearRGB_mono pw hpw hm2) (le_max_right _ _)
    · have ho2 : s * m + (1 - s) * o ≤ o := by
        have hx := hhi
        rw [max_eq_left h] at hx
        exact hx
      exact le_trans (sRGB_from_linearRGB_mono pw hpw ho2) (le_max_left _ _)

lemma vienotPixel_blend (m : Mat3) (rgb : Vec3) (s : ℚ) (hs : s < 0.999) :
    vienotPixel m s rgb =
      (s * (mulVec m rgb).1 + (1 - s) * rgb.1,
       s * (mulVec m rgb).2.1 + (1 - s) * rgb.2.1,
       s * (mulVec m rgb).2.2 + (1 - s) * rgb.2.2) := by
  unfold vienotPixel
  rw [if_pos hs]

lemma blendBetween_core2 (pw : ℚ → ℚ → ℚ) (hpw : PowEncHyp pw) (o c s : ℚ)
    (h0 : 0 < s) (h1 : s < 1) :
    BlendBetween pw o (c * s + o * (1 - s)) (c * 1 + o * (1 - 1)) := by
  have h := blendBetween_core pw hpw o c s h0 h1
  have e1 : c * s + o * (1 - s) = s * c + (1 - s) * o := by ring
  have e2 : c * 1 + o * (1 - 1) = c := by ring
  rw [e1, e2]
  exact h

/-- C10 amended: for 0 < s2 < 1 (with s2 below the 0.999 epsilon for the
Vienot path, which snaps larger severities to the full result), each
blended linear channel of either transform lies strictly between the
original linear value and the full-severity (1.0) linear value when those
differ and equals them when they are equal, and the encoded byte lies
non-strictly between the encoded endpoints.  Strictness cannot hold at
the byte level: quantization maps nearby linear values to an endpoint
byte. -/
theorem severity_blend_between (pw : ℚ → ℚ → ℚ) (hpw : PowEncHyp pw)
    (s1 s2 : ℚ) (hs12 : s1 < s2) (h0 : 0 < s2) (h1 : s2 < 1)
    (m : Mat3) (p : DLBrettel1997Params) (rgb : Vec3) :
    (s2 < 0.999 →
      BlendBetween pw rgb.1 (vienotPixel m s2 rgb).1 (vienotPixel m 1 rgb).1 ∧
      BlendBetween pw rgb.2.1 (vienotPixel m s2 rgb).2.1 (vienotPixel m 1 rgb).2.1 ∧
      BlendBetween pw rgb.2.2 (vienotPixel m s2 rgb).2.2 (vienotPixel m 1 rgb).2.2) ∧
    (BlendBetween pw rgb.1 (brettelPixel p s2 rgb).1 (brettelPixel p 1 rgb).1 ∧
     BlendBetween pw rgb.2.1 (brettelPixel p s2 rgb).2.1 (brettelPixel p 1 rgb).2.1 ∧
     BlendBetween pw rgb.2.2 (brettelPixel p s2 rgb).2.2 (brettelPixel p 1 rgb).2.2) := by
  constructor
  · intro hs999
    rw [vienotPixel_blend m rgb s2 hs999, vienotPixel_severity_one]
    exact ⟨blendBetween_core pw hpw rgb.1 (mulVec m rgb).1 s2 h0 h1,
      blendBetween_core pw hpw rgb.2.1 (mulVec m rgb).2.1 s2 h0 h1,
      blendBetween_core pw hpw rgb.2.2 (mulVec m rgb).2.2 s2 h0 h1⟩
  · simp only [brettelPixel]
    split_ifs with hdot
    · exact ⟨blendBetween_core2 pw hpw rgb.1 (mulVec p.rgbCvdFromRgb_1 rgb).1 s2 h0 h1,
        blendBetween_core2 pw hpw rgb.2.1 (mulVec p.rgbCvdFromRgb_1 rgb).2.1 s2 h0 h1,
        blendBetween_core2 pw hpw rgb.2.2 (mulVec p.rgbCvdFromRgb_1 rgb).2.2 s2 h0 h1⟩
    · exact ⟨blendBetween_core2 pw hpw rgb.1 (mulVec p.rgbCvdFromRgb_2 rgb).1 s2 h0 h1,
        blendBetween_core2 pw hpw rgb.2.1 (mulVec p.rgbCvdFromRgb_2 rgb).2.1 s2 h0 h1,
        blendBetween_core2 pw hpw rgb.2.2 (mulVec p.rgbCvdFromRgb_2 rgb).2.2 s2 h0 h1⟩

/-- Witness for the amended C10 at a concrete severity, matrix and pixel. -/
theorem severity_blend_between_witness :
    BlendBetween pwAff ((1 : ℚ) / 2, (1 : ℚ) / 3, (1 : ℚ) / 4).1
      (vienotPixel dl_vienot_protan_rgbCvd_from_rgb (1 / 2)
        ((1 : ℚ) / 2, (1 : ℚ) / 3, (1 : ℚ) / 4)).1
      (vienotPixel dl_vienot_protan_rgbCvd_from_rgb 1
        ((1 : ℚ) / 2, (1 : ℚ) / 3, (1 : ℚ) / 4)).1 ∧
    BlendBetween pwAff ((1 : ℚ) / 2, (1 : ℚ) / 3, (1 : ℚ) / 4).1
      (brettelPixel brettel_tritan_params (1 / 2)
        ((1 : ℚ) / 2, (1 : ℚ) / 3, (1 : ℚ) / 4)).1
      (brettelPixel brettel_tritan_params 1
        ((1 : ℚ) / 2, (1 : ℚ) / 3, (1 : ℚ) / 4)).1 := by
  have T := severity_blend_between pwAff pwAff_encHyp (1 / 4) (1 / 2) (by norm_num)
    (by norm_num) (by norm_num) dl_vienot_protan_rgbCvd_from_rgb brettel_tritan_params
    ((1 : ℚ) / 2, (1 : ℚ) / 3, (1 : ℚ) / 4)
  exact ⟨(T.1 (by norm_num)).1, T.2.1⟩

lemma applyPixel_at0 (pw : ℚ → ℚ → ℚ) (f : Vec3 → Vec3) (buf : Buffer) (base : ℕ) :
    applyPixel pw f buf base base =
      sRGB_from_linearRGB pw
        ((f (linearRGB_from_sRGB pw (buf base),
             linearRGB_from_sRGB pw (buf (base + 1)),
             linearRGB_from_sRGB pw (buf (base + 2)))).1) := by
  unfold applyPixel
  rw [if_pos rfl]

/-- The concrete input pixel of the C10 counterexample: bytes (1, 0, 0, 0). -/
def bufC10 : Buffer := fun i => if i = 0 then 1 else 0

/-- Counterexample to C10 as stated: for the Vienot protan transform on
the pixel with bytes (1, 0, 0), severities s1 = 1/4 < s2 = 1/2 < 1, the
red byte at severity 1/2 is 1, equal to the original byte 1, while the
full-severity byte is 0: the result is not strictly between the
endpoints although original and full-severity bytes differ.  All values
stay in the codec branches that do not consult the power function. -/
theorem blend_strictness_counterexample :
    dl_simulate_cvd_vienot1999 pwAff DLDeficiency.Protan (1 / 2) bufC10 1 1 0 0 = 1 ∧
    dl_simulate_cvd_vienot1999 pwAff DLDeficiency.Protan 1 bufC10 1 1 0 0 = 0 ∧
    bufC10 0 = 1 ∧
    ¬ ((bufC10 0 < dl_simulate_cvd_vienot1999 pwAff DLDeficiency.Protan (1 / 2) bufC10 1 1 0 0 ∧
        dl_simulate_cvd_vienot1999 pwAff DLDeficiency.Protan (1 / 2) bufC10 1 1 0 0 <
          dl_simulate_cvd_vienot1999 pwAff DLDeficiency.Protan 1 bufC10 1 1 0 0) ∨
       (dl_simulate_cvd_vienot1999 pwAff DLDeficiency.Protan 1 bufC10 1 1 0 0 <
          dl_simulate_cvd_vienot1999 pwAff DLDeficiency.Protan (1 / 2) bufC10 1 1 0 0 ∧
        dl_simulate_cvd_vienot1999 pwAff DLDeficiency.Protan (1 / 2) bufC10 1 1 0 0 <
          bufC10 0) ∨
       bufC10 0 = dl_simulate_cvd_vienot1999 pwAff DLDeficiency.Protan 1 bufC10 1 1 0 0) := by
  have hhalf : dl_simulate_cvd_vienot1999 pwAff DLDeficiency.Protan (1 / 2) bufC10 1 1 0 0 = 1 := by
    rw [vienot_eq_processImage]
    rw [show strideOf 1 0 = 4 from by norm_num [strideOf]]
    rw [processImage_one_one]
    rw [applyPixel_at0]
    rw [show bufC10 0 = 1 from rfl, show bufC10 (0 + 1) = 0 from rfl,
        show bufC10 (0 + 2) = 0 from rfl]
    rw [decode_low pwAff 1 (by norm_num), decode_low pwAff 0 (by norm_num)]
    have hv : ((vienotPixel (vienotParams DLDeficiency.Protan) (1 / 2)
        (((1 : ℕ) : ℚ) / 3294.6, ((0 : ℕ) : ℚ) / 3294.6, ((0 : ℕ) : ℚ) / 3294.6))).1 =
        55619 / 329460000 := by
      simp only [vienotParams, vienotPixel]
      rw [if_pos (by norm_num)]
      norm_num [dl_vienot_protan_rgbCvd_from_rgb, mulVec, dotv]
    rw [hv]
    unfold sRGB_from_linearRGB
    rw [if_neg (by norm_num), if_neg (by norm_num), if_pos (by norm_num)]
    exact byteOfRat_eq 1 (by norm_num) (by norm_num)
  have hfull : dl_simulate_cvd_vienot1999 pwAff DLDeficiency.Protan 1 bufC10 1 1 0 0 = 0 := by
    rw [vienot_eq_processImage]
    rw [show strideOf 1 0 = 4 from by norm_num [strideOf]]
    rw [processImage_one_one]
    rw [applyPixel_at0]
    rw [show bufC10 0 = 1 from rfl, show bufC10 (0 + 1) = 0 from rfl,
        show bufC10 (0 + 2) = 0 from rfl]
    rw [decode_low pwAff 1 (by norm_num), decode_low pwAff 0 (by norm_num)]
    have hv : ((vienotPixel (vienotParams DLDeficiency.Protan) 1
        (((1 : ℕ) : ℚ) / 3294.6, ((0 : ℕ) : ℚ) / 3294.6, ((0 : ℕ) : ℚ) / 3294.6))).1 =
        11238 / 329460000 := by
      simp only [vienotParams, vienotPixel]
      rw [if_neg (by norm_num)]
      norm_num [dl_vienot_protan_rgbCvd_from_rgb, mulVec, dotv]
    rw [hv]
    unfold sRGB_from_linearRGB
    rw [if_neg (by norm_num), if_neg (by norm_num), if_pos (by norm_num)]
    exact byteOfRat_eq 0 (by norm_num) (by norm_num)
  refine ⟨hhalf, hfull, rfl, ?_⟩
  rw [hhalf, hfull]
  norm_num [bufC10]
